import Mathlib

/-!
Formal model of the go-tokenizer repository: the model-resolution layer
(tokenizer.go), the LLaMA3 special-token table (codec/llama3_base.go), the
GPT-2 codec constructor, and the BPE codec engine (vocabulary store,
pre-tokenizer, special-token recognizer, merge engine, encode/decode/count).

Byte sequences are modelled as lists of naturals below 256; Go strings used
as map keys are modelled as Lean strings; Go maps are modelled by
association lists whose iteration order is an arbitrary permutation of
their entries, matching the unspecified iteration order of a Go map range.
-/

set_option maxRecDepth 100000

deriving instance DecidableEq for Except

namespace GoTokenizer

/-- Error string of ErrModelNotSupported in tokenizer.go. -/
def ErrModelNotSupported : String := "model not supported"

/-- Error string of ErrEncodingNotSupported in tokenizer.go. -/
def ErrEncodingNotSupported : String := "encoding not supported"

/-- Encoding constant R50kBase from tokenizer.go. -/
def R50kBase : String := "r50k_base"

/-- Encoding constant P50kBase from tokenizer.go. -/
def P50kBase : String := "p50k_base"

/-- Encoding constant P50kEdit from tokenizer.go. -/
def P50kEdit : String := "p50k_edit"

/-- Encoding constant Cl100kBase from tokenizer.go. -/
def Cl100kBase : String := "cl100k_base"

/-- Encoding constant O200kBase from tokenizer.go. -/
def O200kBase : String := "o200k_base"

/-- Encoding constant OllamaLlamaBase from tokenizer.go. -/
def OllamaLlamaBase : String := "llama"

/-- Encoding constant AnthropicBase from tokenizer.go: the same string
literal as Cl100kBase. -/
def AnthropicBase : String := "cl100k_base"

def definitiveTokenizerFamilies : List (String × String) := [
  ("gpt-5", O200kBase),
  ("o1-", O200kBase),
  ("o3-", O200kBase),
  ("o4-", O200kBase),
  ("chatgpt-4o-", O200kBase),
  ("gpt-4.1-", O200kBase),
  ("gpt-4o-", O200kBase),
  ("gpt-4-", Cl100kBase),
  ("gpt-3.5-turbo-", Cl100kBase),
  ("gpt-35-turbo-", Cl100kBase),
  ("ft:gpt-4", Cl100kBase),
  ("ft:gpt-3.5-turbo", Cl100kBase),
  ("ft:davinci-002", Cl100kBase),
  ("ft:babbage-002", Cl100kBase)
]

def claudeModels : List (String × String) := [
  ("claude-2.0", Cl100kBase),
  ("claude-2.1", Cl100kBase),
  ("claude-3-opus-", AnthropicBase),
  ("claude-3-sonnet-", AnthropicBase),
  ("claude-3-5-sonnet-", AnthropicBase),
  ("claude-3-haiku-", AnthropicBase),
  ("claude-3-5-haiku-", AnthropicBase),
  ("claude-3-7-sonnet-", AnthropicBase),
  ("claude-opus-4", AnthropicBase),
  ("claude-sonnet-4", AnthropicBase)
]

def deepSeekModels : List (String × String) := [
  ("deepseek-r1", R50kBase),
  ("deepseek-v3", R50kBase),
  ("deepseek-v2.5", R50kBase),
  ("deepseek-v2", R50kBase),
  ("deepseek-coder-v2", R50kBase),
  ("deepseek-coder", R50kBase),
  ("deepseek-llm", R50kBase),
  ("deepcoder", R50kBase),
  ("deepscaler", R50kBase)
]

def llamaModels : List (String × String) := [
  ("llama3.1", OllamaLlamaBase),
  ("llama3.2", OllamaLlamaBase),
  ("llama3.3", OllamaLlamaBase),
  ("llama3", OllamaLlamaBase),
  ("llama4", OllamaLlamaBase),
  ("llama2", R50kBase),
  ("codellama", R50kBase),
  ("llama2-uncensored", R50kBase),
  ("llama2-chinese", R50kBase)
]

def qwenModels : List (String × String) := [
  ("qwen3", R50kBase),
  ("qwen2.5vl", R50kBase),
  ("qwen2.5", R50kBase),
  ("qwen2.5-coder", R50kBase),
  ("qwen", R50kBase),
  ("qwen2", R50kBase),
  ("qwen2-math", R50kBase),
  ("qwq", R50kBase),
  ("codeqwen", R50kBase)
]

def mistralModels : List (String × String) := [
  ("mistral", R50kBase),
  ("mistral-nemo", R50kBase),
  ("mistral-small", R50kBase),
  ("mistral-small3.1", R50kBase),
  ("mistral-small3.2", R50kBase),
  ("mistral-large", R50kBase),
  ("mistral-openorca", R50kBase),
  ("mistrallite", R50kBase),
  ("mathstral", R50kBase),
  ("codestral", R50kBase),
  ("devstral", R50kBase),
  ("mixtral", R50kBase)
]

def gemmaModels : List (String × String) := [
  ("gemma3n", R50kBase),
  ("gemma3", R50kBase),
  ("gemma2", R50kBase),
  ("gemma", R50kBase),
  ("codegemma", R50kBase)
]

def phiModels : List (String × String) := [
  ("phi3", OllamaLlamaBase),
  ("phi4", R50kBase),
  ("phi4-mini", R50kBase),
  ("phi4-reasoning", R50kBase),
  ("phi4-mini-reasoning", R50kBase),
  ("phi3.5", R50kBase),
  ("phi", R50kBase)
]

def visionModels : List (String × String) := [
  ("llava", R50kBase),
  ("llava-llama3", OllamaLlamaBase),
  ("llava-phi3", R50kBase),
  ("minicpm-v", R50kBase),
  ("llama3.2-vision", OllamaLlamaBase),
  ("bakllava", R50kBase),
  ("moondream", R50kBase),
  ("granite3.2-vision", R50kBase)
]

def graniteModels : List (String × String) := [
  ("granite-code", R50kBase),
  ("granite3.3", R50kBase),
  ("granite3.2", R50kBase),
  ("granite3.1-dense", R50kBase),
  ("granite3.1-moe", R50kBase),
  ("granite3-dense", R50kBase),
  ("granite3-moe", R50kBase),
  ("granite3-guardian", R50kBase),
  ("granite-embedding", R50kBase)
]

def smallModels : List (String × String) := [
  ("smollm2", R50kBase),
  ("smollm", R50kBase),
  ("tinyllama", R50kBase),
  ("phi", R50kBase),
  ("tinydolphin", R50kBase)
]

def embeddingModels : List (String × String) := [
  ("nomic-embed-text", R50kBase),
  ("mxbai-embed-large", R50kBase),
  ("bge-m3", R50kBase),
  ("snowflake-arctic-embed", R50kBase),
  ("snowflake-arctic-embed2", R50kBase),
  ("all-minilm", R50kBase),
  ("bge-large", R50kBase),
  ("paraphrase-multilingual", R50kBase)
]

def derivedModels : List (String × String) := [
  ("dolphin3", OllamaLlamaBase),
  ("dolphin-mixtral", R50kBase),
  ("dolphin-mistral", R50kBase),
  ("dolphin-llama3", OllamaLlamaBase),
  ("dolphincoder", R50kBase),
  ("dolphin-phi", R50kBase),
  ("hermes3", OllamaLlamaBase),
  ("nous-hermes2", R50kBase),
  ("nous-hermes2-mixtral", R50kBase),
  ("nous-hermes", R50kBase),
  ("openhermes", R50kBase),
  ("wizardlm2", R50kBase),
  ("wizardlm", R50kBase),
  ("wizardlm-uncensored", R50kBase),
  ("wizardcoder", R50kBase),
  ("wizard-math", R50kBase),
  ("wizard-vicuna-uncensored", R50kBase),
  ("wizard-vicuna", R50kBase)
]

def fallbackModels : List (String × String) := [
  ("starcoder2", R50kBase),
  ("starcoder", R50kBase),
  ("orca-mini", R50kBase),
  ("orca2", R50kBase),
  ("yi", R50kBase),
  ("yi-coder", R50kBase),
  ("zephyr", R50kBase),
  ("command-r", R50kBase),
  ("command-r-plus", R50kBase),
  ("command-r7b", R50kBase),
  ("command-r7b-arabic", R50kBase),
  ("command-a", R50kBase),
  ("vicuna", R50kBase),
  ("openchat", R50kBase),
  ("olmo2", R50kBase),
  ("dbrx", R50kBase),
  ("falcon", R50kBase),
  ("falcon2", R50kBase),
  ("falcon3", R50kBase),
  ("solar", R50kBase),
  ("solar-pro", R50kBase),
  ("stablelm2", R50kBase),
  ("stablelm-zephyr", R50kBase),
  ("stable-code", R50kBase),
  ("stable-beluga", R50kBase),
  ("sqlcoder", R50kBase),
  ("reflection", OllamaLlamaBase),
  ("starling-lm", R50kBase),
  ("xwinlm", R50kBase),
  ("phind-codellama", R50kBase),
  ("internlm2", R50kBase),
  ("yarn-llama2", R50kBase),
  ("yarn-mistral", R50kBase),
  ("nexusraven", R50kBase),
  ("shieldgemma", R50kBase),
  ("everythinglm", R50kBase),
  ("codeup", R50kBase),
  ("duckdb-nsql", R50kBase),
  ("magicoder", R50kBase),
  ("codebooga", R50kBase),
  ("bespoke-minicheck", R50kBase),
  ("tulu3", OllamaLlamaBase),
  ("nuextract", R50kBase),
  ("megadolphin", R50kBase),
  ("notux", R50kBase),
  ("open-orca-platypus2", R50kBase),
  ("notus", R50kBase),
  ("goliath", R50kBase),
  ("alfred", R50kBase),
  ("neural-chat", R50kBase),
  ("samantha-mistral", R50kBase),
  ("athene-v2", R50kBase),
  ("nemotron-mini", R50kBase),
  ("nemotron", OllamaLlamaBase),
  ("opencoder", R50kBase),
  ("exaone3.5", R50kBase),
  ("exaone-deep", R50kBase),
  ("aya", R50kBase),
  ("aya-expanse", R50kBase),
  ("smallthinker", R50kBase),
  ("sailor2", R50kBase),
  ("firefunction-v2", OllamaLlamaBase),
  ("codegeex4", R50kBase),
  ("glm4", R50kBase),
  ("meditron", R50kBase),
  ("medllama2", R50kBase),
  ("reader-lm", R50kBase),
  ("r1-1776", R50kBase),
  ("marco-o1", R50kBase),
  ("openthinker", R50kBase),
  ("magistral", R50kBase),
  ("cogito", R50kBase)
]

/-- The fourteen family tables in the order buildModelPrefixToEncoding merges
them in tokenizer.go. -/
def allTables : List (List (String × String)) :=
  [definitiveTokenizerFamilies, claudeModels, deepSeekModels, llamaModels,
   qwenModels, mistralModels, gemmaModels, phiModels, visionModels,
   graniteModels, smallModels, embeddingModels, derivedModels, fallbackModels]

/-- One Go map assignment result[k] = v: replaces the value when the key is
already present, otherwise adds the entry. -/
def upsert (acc : List (String × String)) (p : String × String) :
    List (String × String) :=
  if acc.any (fun q => q.1 == p.1) then
    acc.map (fun q => if q.1 == p.1 then (p.1, p.2) else q)
  else acc ++ [p]

/-- buildModelPrefixToEncoding from tokenizer.go: all fourteen tables merged
into one flat map by repeated assignment, later assignments overwriting
earlier ones for the same key.  The association list records the contents of
the resulting Go map (one entry per key). -/
def buildModelPrefixToEncoding : List (String × String) :=
  allTables.flatten.foldl upsert []

/-- The package-level modelPrefixToEncoding map of tokenizer.go. -/
def modelPrefixToEncoding : List (String × String) :=
  buildModelPrefixToEncoding

/-- The six codec constructors reachable from Get, plus the GPT-2 codec
NewGPT2Base which Get never constructs. -/
inductive CodecKind where
  | o200k
  | cl100k
  | r50k
  | p50k
  | p50kEdit
  | llama3
  | gpt2
deriving DecidableEq

/-- Get from tokenizer.go: the switch over the six supported encoding
identifiers; any other identifier yields ErrEncodingNotSupported. -/
def Get (e : String) : Except String CodecKind :=
  if e = O200kBase then .ok .o200k
  else if e = Cl100kBase then .ok .cl100k
  else if e = R50kBase then .ok .r50k
  else if e = P50kBase then .ok .p50k
  else if e = P50kEdit then .ok .p50kEdit
  else if e = OllamaLlamaBase then .ok .llama3
  else .error ErrEncodingNotSupported

/-- The exact-match tier of ForModel in tokenizer.go: the switch cases over
the named Model constants, grouped by the encoding they return. -/
def exactEncoding (m : String) : Option String :=
  if m ∈ ["o1", "o1-preview", "o1-mini", "gpt-4.1", "gpt-4o", "o3",
          "o3-mini", "o4-mini"] then some O200kBase
  else if m ∈ ["gpt-4", "gpt-3.5", "gpt-3.5-turbo",
               "text-embedding-ada-002"] then some Cl100kBase
  else if m ∈ ["text-davinci-003", "text-davinci-002", "code-davinci-001",
               "code-davinci-002", "code-cushman-002", "code-cushman-001",
               "davinci-codex", "cushman-codex"] then some P50kBase
  else if m ∈ ["text-davinci-001", "text-curie-001", "text-babbage-001",
               "text-ada-001", "davinci", "curie", "babbage", "ada",
               "text-similarity-davinci-001", "text-similarity-curie-001",
               "text-similarity-babbage-001", "text-similarity-ada-001",
               "text-search-davinci-doc-001", "text-search-curie-doc-001",
               "text-search-ada-doc-001", "text-search-babbage-doc-001",
               "code-search-babbage-code-001",
               "code-search-ada-code-001"] then some R50kBase
  else if m ∈ ["text-davinci-edit-001", "code-davinci-edit-001"] then
    some P50kEdit
  else none

/-- strings.HasPrefix p.1 m, computed on the character lists. -/
def goHasPrefix (p m : String) : Bool :=
  p.data.isPrefixOf m.data

/-- ForModel from tokenizer.go, parametrized by the iteration order of the
modelPrefixToEncoding map: the exact-match switch first, then the first
entry of the iteration whose key is a prefix of the model name.  The Go
runtime picks an arbitrary permutation of the map entries for each range
loop, so the behaviour of ForModel on one call is forModelWith applied to
some permutation of modelPrefixToEncoding. -/
def forModelWith (order : List (String × String)) (m : String) :
    Except String CodecKind :=
  match exactEncoding m with
  | some e => Get e
  | none =>
    match order.find? (fun p => goHasPrefix p.1 m) with
    | some p => Get p.2
    | none => .error ErrModelNotSupported

/-- The contents of the merged modelPrefixToEncoding map, as an explicit
literal list (computed by evaluating buildModelPrefixToEncoding; proved
equal to it below). -/
def modelPrefixLiteral : List (String × String) := [
  ("gpt-5", O200kBase),
  ("o1-", O200kBase),
  ("o3-", O200kBase),
  ("o4-", O200kBase),
  ("chatgpt-4o-", O200kBase),
  ("gpt-4.1-", O200kBase),
  ("gpt-4o-", O200kBase),
  ("gpt-4-", Cl100kBase),
  ("gpt-3.5-turbo-", Cl100kBase),
  ("gpt-35-turbo-", Cl100kBase),
  ("ft:gpt-4", Cl100kBase),
  ("ft:gpt-3.5-turbo", Cl100kBase),
  ("ft:davinci-002", Cl100kBase),
  ("ft:babbage-002", Cl100kBase),
  ("claude-2.0", Cl100kBase),
  ("claude-2.1", Cl100kBase),
  ("claude-3-opus-", AnthropicBase),
  ("claude-3-sonnet-", AnthropicBase),
  ("claude-3-5-sonnet-", AnthropicBase),
  ("claude-3-haiku-", AnthropicBase),
  ("claude-3-5-haiku-", AnthropicBase),
  ("claude-3-7-sonnet-", AnthropicBase),
  ("claude-opus-4", AnthropicBase),
  ("claude-sonnet-4", AnthropicBase),
  ("deepseek-r1", R50kBase),
  ("deepseek-v3", R50kBase),
  ("deepseek-v2.5", R50kBase),
  ("deepseek-v2", R50kBase),
  ("deepseek-coder-v2", R50kBase),
  ("deepseek-coder", R50kBase),
  ("deepseek-llm", R50kBase),
  ("deepcoder", R50kBase),
  ("deepscaler", R50kBase),
  ("llama3.1", OllamaLlamaBase),
  ("llama3.2", OllamaLlamaBase),
  ("llama3.3", OllamaLlamaBase),
  ("llama3", OllamaLlamaBase),
  ("llama4", OllamaLlamaBase),
  ("llama2", R50kBase),
  ("codellama", R50kBase),
  ("llama2-uncensored", R50kBase),
  ("llama2-chinese", R50kBase),
  ("qwen3", R50kBase),
  ("qwen2.5vl", R50kBase),
  ("qwen2.5", R50kBase),
  ("qwen2.5-coder", R50kBase),
  ("qwen", R50kBase),
  ("qwen2", R50kBase),
  ("qwen2-math", R50kBase),
  ("qwq", R50kBase),
  ("codeqwen", R50kBase),
  ("mistral", R50kBase),
  ("mistral-nemo", R50kBase),
  ("mistral-small", R50kBase),
  ("mistral-small3.1", R50kBase),
  ("mistral-small3.2", R50kBase),
  ("mistral-large", R50kBase),
  ("mistral-openorca", R50kBase),
  ("mistrallite", R50kBase),
  ("mathstral", R50kBase),
  ("codestral", R50kBase),
  ("devstral", R50kBase),
  ("mixtral", R50kBase),
  ("gemma3n", R50kBase),
  ("gemma3", R50kBase),
  ("gemma2", R50kBase),
  ("gemma", R50kBase),
  ("codegemma", R50kBase),
  ("phi3", OllamaLlamaBase),
  ("phi4", R50kBase),
  ("phi4-mini", R50kBase),
  ("phi4-reasoning", R50kBase),
  ("phi4-mini-reasoning", R50kBase),
  ("phi3.5", R50kBase),
  ("phi", R50kBase),
  ("llava", R50kBase),
  ("llava-llama3", OllamaLlamaBase),
  ("llava-phi3", R50kBase),
  ("minicpm-v", R50kBase),
  ("llama3.2-vision", OllamaLlamaBase),
  ("bakllava", R50kBase),
  ("moondream", R50kBase),
  ("granite3.2-vision", R50kBase),
  ("granite-code", R50kBase),
  ("granite3.3", R50kBase),
  ("granite3.2", R50kBase),
  ("granite3.1-dense", R50kBase),
  ("granite3.1-moe", R50kBase),
  ("granite3-dense", R50kBase),
  ("granite3-moe", R50kBase),
  ("granite3-guardian", R50kBase),
  ("granite-embedding", R50kBase),
  ("smollm2", R50kBase),
  ("smollm", R50kBase),
  ("tinyllama", R50kBase),
  ("tinydolphin", R50kBase),
  ("nomic-embed-text", R50kBase),
  ("mxbai-embed-large", R50kBase),
  ("bge-m3", R50kBase),
  ("snowflake-arctic-embed", R50kBase),
  ("snowflake-arctic-embed2", R50kBase),
  ("all-minilm", R50kBase),
  ("bge-large", R50kBase),
  ("paraphrase-multilingual", R50kBase),
  ("dolphin3", OllamaLlamaBase),
  ("dolphin-mixtral", R50kBase),
  ("dolphin-mistral", R50kBase),
  ("dolphin-llama3", OllamaLlamaBase),
  ("dolphincoder", R50kBase),
  ("dolphin-phi", R50kBase),
  ("hermes3", OllamaLlamaBase),
  ("nous-hermes2", R50kBase),
  ("nous-hermes2-mixtral", R50kBase),
  ("nous-hermes", R50kBase),
  ("openhermes", R50kBase),
  ("wizardlm2", R50kBase),
  ("wizardlm", R50kBase),
  ("wizardlm-uncensored", R50kBase),
  ("wizardcoder", R50kBase),
  ("wizard-math", R50kBase),
  ("wizard-vicuna-uncensored", R50kBase),
  ("wizard-vicuna", R50kBase),
  ("starcoder2", R50kBase),
  ("starcoder", R50kBase),
  ("orca-mini", R50kBase),
  ("orca2", R50kBase),
  ("yi", R50kBase),
  ("yi-coder", R50kBase),
  ("zephyr", R50kBase),
  ("command-r", R50kBase),
  ("command-r-plus", R50kBase),
  ("command-r7b", R50kBase),
  ("command-r7b-arabic", R50kBase),
  ("command-a", R50kBase),
  ("vicuna", R50kBase),
  ("openchat", R50kBase),
  ("olmo2", R50kBase),
  ("dbrx", R50kBase),
  ("falcon", R50kBase),
  ("falcon2", R50kBase),
  ("falcon3", R50kBase),
  ("solar", R50kBase),
  ("solar-pro", R50kBase),
  ("stablelm2", R50kBase),
  ("stablelm-zephyr", R50kBase),
  ("stable-code", R50kBase),
  ("stable-beluga", R50kBase),
  ("sqlcoder", R50kBase),
  ("reflection", OllamaLlamaBase),
  ("starling-lm", R50kBase),
  ("xwinlm", R50kBase),
  ("phind-codellama", R50kBase),
  ("internlm2", R50kBase),
  ("yarn-llama2", R50kBase),
  ("yarn-mistral", R50kBase),
  ("nexusraven", R50kBase),
  ("shieldgemma", R50kBase),
  ("everythinglm", R50kBase),
  ("codeup", R50kBase),
  ("duckdb-nsql", R50kBase),
  ("magicoder", R50kBase),
  ("codebooga", R50kBase),
  ("bespoke-minicheck", R50kBase),
  ("tulu3", OllamaLlamaBase),
  ("nuextract", R50kBase),
  ("megadolphin", R50kBase),
  ("notux", R50kBase),
  ("open-orca-platypus2", R50kBase),
  ("notus", R50kBase),
  ("goliath", R50kBase),
  ("alfred", R50kBase),
  ("neural-chat", R50kBase),
  ("samantha-mistral", R50kBase),
  ("athene-v2", R50kBase),
  ("nemotron-mini", R50kBase),
  ("nemotron", OllamaLlamaBase),
  ("opencoder", R50kBase),
  ("exaone3.5", R50kBase),
  ("exaone-deep", R50kBase),
  ("aya", R50kBase),
  ("aya-expanse", R50kBase),
  ("smallthinker", R50kBase),
  ("sailor2", R50kBase),
  ("firefunction-v2", OllamaLlamaBase),
  ("codegeex4", R50kBase),
  ("glm4", R50kBase),
  ("meditron", R50kBase),
  ("medllama2", R50kBase),
  ("reader-lm", R50kBase),
  ("r1-1776", R50kBase),
  ("marco-o1", R50kBase),
  ("openthinker", R50kBase),
  ("magistral", R50kBase),
  ("cogito", R50kBase)
]


/-- Iteration order used in the counterexamples: a legal Go map iteration
of modelPrefixToEncoding that happens to visit the "phi" entry first. -/
def phiFirstOrder : List (String × String) :=
  ("phi", R50kBase) :: modelPrefixLiteral.erase ("phi", R50kBase)

/-- Iteration order used in the counterexamples: a legal Go map iteration
of modelPrefixToEncoding that happens to visit the "phi3" entry first. -/
def phi3FirstOrder : List (String × String) :=
  ("phi3", OllamaLlamaBase) :: modelPrefixLiteral.erase ("phi3", OllamaLlamaBase)

/-- The six encoding identifiers accepted by Get. -/
def supportedEncodings : List String :=
  [O200kBase, Cl100kBase, R50kBase, P50kBase, P50kEdit, OllamaLlamaBase]

/-- The data of a codec value: its name and its special-token table
(string literal to reserved id). -/
structure CodecInfo where
  name : String
  specialTokens : List (String × Nat)

/-- NewGPT2Base from the GPT-2 codec source file: codec named gpt2 whose
special-token table holds the single endoftext marker with id 50256. -/
def NewGPT2Base : CodecInfo :=
  { name := "gpt2", specialTokens := [("<|endoftext|>", 50256)] }

/-- The name each codec constructor reachable from Get gives its codec.
The llama and gpt2 names are the literals of the shown constructors; the
other four are the family identifiers of their generated constructors. -/
def codecName : CodecKind → String
  | .o200k => O200kBase
  | .cl100k => Cl100kBase
  | .r50k => R50kBase
  | .p50k => P50kBase
  | .p50kEdit => P50kEdit
  | .llama3 => OllamaLlamaBase
  | .gpt2 => "gpt2"

/-- numReservedSpecialTokens from codec/llama3_base.go. -/
def numReservedSpecialTokens : Nat := 256

/-- The special-token table built by NewLLama3Base in codec/llama3_base.go,
as a function of numBaseTokens = len(llamaVocab): twelve explicitly named
tokens at ids numBaseTokens .. numBaseTokens+11, then the loop over
i < numReservedSpecialTokens - 12 adding reserved_special_token_(2+i) at id
numBaseTokens + 12 + i.  All keys are distinct, so the association list has
exactly the entries of the Go map. -/
def llama3SpecialTokens (numBaseTokens : Nat) : List (String × Nat) :=
  [("<|begin_of_text|>", numBaseTokens),
   ("<|end_of_text|>", numBaseTokens + 1),
   ("<|reserved_special_token_0|>", numBaseTokens + 2),
   ("<|reserved_special_token_1|>", numBaseTokens + 3),
   ("<|finetune_right_pad_id|>", numBaseTokens + 4),
   ("<|step_id|>", numBaseTokens + 5),
   ("<|start_header_id|>", numBaseTokens + 6),
   ("<|end_header_id|>", numBaseTokens + 7),
   ("<|eom_id|>", numBaseTokens + 8),
   ("<|eot_id|>", numBaseTokens + 9),
   ("<|python_tag|>", numBaseTokens + 10),
   ("<|image|>", numBaseTokens + 11)] ++
  (List.range (numReservedSpecialTokens - 12)).map
    (fun i => ("<|reserved_special_token_" ++ toString (2 + i) ++ "|>",
               numBaseTokens + 12 + i))

/-- NewLLama3Base from codec/llama3_base.go, as a function of the size of
the (externally generated) llama vocabulary. -/
def NewLLama3Base (numBaseTokens : Nat) : CodecInfo :=
  { name := "llama", specialTokens := llama3SpecialTokens numBaseTokens }

/-- A numeric fingerprint of a string, used to decide distinctness of the
special-token names cheaply: distinct fingerprints force distinct
strings. -/
def strKey (s : String) : Nat :=
  s.data.foldl (fun a c => a * 256 + c.toNat) 0

/-- Modelled from the spec: the Ratios table referenced by Count in
tokenizer.go is not among the shown sources.  It is modelled as an
association list from model-name prefixes to ratios, a ratio being an
exact numerator/denominator pair of naturals.  Applying a ratio models
Go's int(float64(count) * ratio), which truncates toward zero; for a
nonnegative count and ratio this is floor division. -/
def applyRatio (count : Nat) (r : Nat × Nat) : Nat :=
  count * r.1 / r.2

/-- Count(model, input) from tokenizer.go, parametrized by the iteration
order of the modelPrefixToEncoding map, by the contents and iteration
order of the Ratios table, and by the per-codec count function (the codec
engine is modelled separately): resolve the model, take the raw codec
count, then multiply by the first ratio in the iteration whose prefix
matches the model name, breaking out of the loop at the first match; with
no match the raw count is returned unchanged. -/
def Count (order : List (String × String))
    (ratios : List (String × (Nat × Nat)))
    (codecCount : CodecKind → String → Nat)
    (model input : String) : Except String Nat :=
  match forModelWith order model with
  | .error e => .error e
  | .ok k =>
    match ratios.find? (fun p => goHasPrefix p.1 model) with
    | some p => .ok (applyRatio (codecCount k input) p.2)
    | none => .ok (codecCount k input)

namespace Codec

/-- Modelled from the spec: the codec engine source file is absent from the
shown sources (only its interface, its constructors and its tests appear),
so the vocabulary store of the spec is modelled as a pair of lookup
functions: rankOf maps a byte sequence to its rank when the sequence is a
vocabulary entry, bytesOf is the inverse lookup. -/
structure Vocab where
  rankOf : List Nat → Option Nat
  bytesOf : Nat → Option (List Nat)

/-- Modelled from the spec: an encoding configuration bundles the family
name, the vocabulary, the special-token table (literal byte strings paired
with reserved ids, listed longest literal first) and the pre-tokenization
splitter.  The pattern-driven splitter is modelled as the function taking
a plain-text segment to its list of chunks; the spec requires only that
the chunks partition the segment. -/
structure Config where
  name : String
  vocab : Vocab
  specialTokens : List (List Nat × Nat)
  split : List Nat → List (List Nat)

/-- A segment produced by the special-token recognizer: either a literal
special token carrying its reserved id, or a run of plain text. -/
inductive Seg where
  | special (s : List Nat) (id : Nat)
  | plain (w : List Nat)

/-- The bytes a segment stands for. -/
def segBytes : Seg → List Nat
  | .special s _ => s
  | .plain w => w

/-- The first special token of the table that is a literal nonempty prefix
of the remaining input. -/
def findSpecialAt (specials : List (List Nat × Nat)) (t : List Nat) :
    Option (List Nat × Nat) :=
  specials.find? (fun p => p.1.isPrefixOf t && !p.1.isEmpty)

/-- The special-token recognizer of the spec: scan left to right; at each
position emit the matching special token of the table (consulted in table
order, the table being kept longest first) or extend the current plain
run by one byte.  Adjacent plain bytes coalesce into one plain segment. -/
def recognize (specials : List (List Nat × Nat)) : List Nat → List Seg
  | [] => []
  | b :: rest =>
    match h : findSpecialAt specials (b :: rest) with
    | some p =>
      Seg.special p.1 p.2 :: recognize specials ((b :: rest).drop p.1.length)
    | none =>
      match recognize specials rest with
      | Seg.plain w :: segs => Seg.plain (b :: w) :: segs
      | segs => Seg.plain [b] :: segs
termination_by t => t.length
decreasing_by
  · have hp := List.find?_some h
    have : ¬p.1.isEmpty := by
      rcases Bool.and_eq_true .. |>.mp hp with ⟨-, h2⟩
      simp_all
    have hlen : 1 ≤ p.1.length := by
      cases hl : p.1 <;> simp_all [List.isEmpty]
    simp only [List.length_drop, List.length_cons]
    omega
  · simp only [List.length_cons]
    omega

/-- The adjacent-pair candidates of the merge engine: for each index i such
that the concatenation of parts i and i+1 is a vocabulary entry, the pair
(i, rank of the concatenation). -/
def candidates (v : Vocab) : List (List Nat) → List (Nat × Nat)
  | a :: b :: rest =>
    (match v.rankOf (a ++ b) with
     | some r => [(0, r)]
     | none => []) ++
    (candidates v (b :: rest)).map (fun p => (p.1 + 1, p.2))
  | _ => []

/-- The merge selection rule: the candidate of lowest rank, the leftmost
one when several candidates share the lowest rank (the fold keeps the
earlier candidate unless a strictly lower rank appears). -/
def selectMin : List (Nat × Nat) → Option (Nat × Nat)
  | [] => none
  | c :: cs => some (cs.foldl (fun best p => if p.2 < best.2 then p else best) c)

/-- Replace parts i and i+1 by their concatenation. -/
def mergeAt : List (List Nat) → Nat → List (List Nat)
  | a :: b :: rest, 0 => (a ++ b) :: rest
  | a :: rest, i + 1 => a :: mergeAt rest i
  | parts, _ => parts

/-- The BPE merge loop, driven by a fuel counter: while some adjacent pair
is a vocabulary entry, merge the selected pair and continue.  Each merge
step removes one part, so fuel equal to the initial number of parts covers
every iteration of the loop until no candidate remains. -/
def bpeMergeFuel (v : Vocab) : Nat → List (List Nat) → List (List Nat)
  | 0, parts => parts
  | fuel + 1, parts =>
    match selectMin (candidates v parts) with
    | none => parts
    | some c => bpeMergeFuel v fuel (mergeAt parts c.1)

/-- The merge engine of the spec: start from the single-byte parts of a
chunk and merge the lowest-rank (leftmost on ties) known adjacent pair
until no adjacent pair is a vocabulary entry. -/
def bpeMerge (v : Vocab) (parts : List (List Nat)) : List (List Nat) :=
  bpeMergeFuel v parts.length parts

/-- All-or-nothing traversal: some list of results when f succeeds on every
element, none otherwise. -/
def traverse? (f : α → Option β) : List α → Option (List β)
  | [] => some []
  | a :: as =>
    match f a, traverse? f as with
    | some b, some bs => some (b :: bs)
    | _, _ => none

/-- Encode one chunk: run the merge engine on the single-byte parts and
look up the rank of every final part, returning the (token bytes, id)
pairs. -/
def encodeChunk (v : Vocab) (c : List Nat) : Option (List (List Nat × Nat)) :=
  traverse? (fun part => (v.rankOf part).map (fun r => (part, r)))
    (bpeMerge v (c.map (fun b => [b])))

/-- Encode one segment: a special token is its reserved id; a plain run is
split into chunks, each chunk merged and looked up. -/
def encodeSeg (cfg : Config) : Seg → Option (List (List Nat × Nat))
  | .special s i => some [(s, i)]
  | .plain w => (traverse? (encodeChunk cfg.vocab) (cfg.split w)).map List.flatten

/-- Encode of the spec: recognize special tokens, encode every segment and
concatenate in order, returning the id sequence and the parallel token
byte strings. -/
def Encode (cfg : Config) (t : List Nat) :
    Option (List Nat × List (List Nat)) :=
  (traverse? (encodeSeg cfg) (recognize cfg.specialTokens t)).map
    (fun l => (l.flatten.map Prod.snd, l.flatten.map Prod.fst))

/-- Decode one id: a vocabulary rank yields its byte sequence through the
inverse vocabulary; otherwise a reserved special-token id yields its
literal; any other id is an error. -/
def decodeId (cfg : Config) (i : Nat) : Option (List Nat) :=
  match cfg.vocab.bytesOf i with
  | some w => some w
  | none => (cfg.specialTokens.find? (fun p => p.2 == i)).map Prod.fst

/-- Decode of the spec: decode every id and concatenate the byte sequences
in input order; an unmapped id makes the whole call fail. -/
def Decode (cfg : Config) (ids : List Nat) : Option (List Nat) :=
  (traverse? (decodeId cfg) ids).map List.flatten

/-- The number of ids one chunk encodes to, without materializing them. -/
def countChunk (v : Vocab) (c : List Nat) : Nat :=
  (bpeMerge v (c.map (fun b => [b]))).length

/-- The number of ids one segment encodes to. -/
def countSeg (cfg : Config) : Seg → Nat
  | .special _ _ => 1
  | .plain w => ((cfg.split w).map (countChunk cfg.vocab)).sum

/-- Count of the spec: the number of ids Encode would produce, computed
without materializing the id sequence. -/
def Count (cfg : Config) (t : List Nat) : Nat :=
  ((recognize cfg.specialTokens t).map (countSeg cfg)).sum

/-- The invariants the spec states for every supported family: the inverse
vocabulary inverts the forward vocabulary; every single byte is a
vocabulary entry (the single-byte floor); reserved special-token ids lie
outside the inverse vocabulary and are pairwise distinct; the splitter
partitions its input. -/
structure SpecOk (cfg : Config) : Prop where
  inverse : ∀ w r, cfg.vocab.rankOf w = some r → cfg.vocab.bytesOf r = some w
  floor : ∀ b, b < 256 → (cfg.vocab.rankOf [b]).isSome
  disjointSpecials : ∀ p ∈ cfg.specialTokens, cfg.vocab.bytesOf p.2 = none
  specialIdsNodup : (cfg.specialTokens.map Prod.snd).Nodup
  splitParts : ∀ w, (cfg.split w).flatten = w

/-- Well-formedness of a segment with respect to a configuration: a special
segment is an entry of the special-token table; a plain segment holds only
bytes. -/
def SegWf (cfg : Config) : Seg → Prop
  | .special s i => (s, i) ∈ cfg.specialTokens
  | .plain w => ∀ b ∈ w, b < 256

/-- A small concrete configuration used to witness the round-trip and count
theorems: the vocabulary maps every single byte to its own value as rank
and the two-byte sequence 104 105 to rank 256; the special-token table
holds one literal (the bytes 60 124) with reserved id 999; the splitter
keeps a segment as one chunk. -/
def witCfg : Config :=
  { name := "witness",
    vocab :=
      { rankOf := fun w =>
          match w with
          | [b] => if b < 256 then some b else none
          | [a, b] => if a == 104 && b == 105 then some 256 else none
          | _ => none,
        bytesOf := fun r =>
          if r < 256 then some [r]
          else if r = 256 then some [104, 105] else none },
    specialTokens := [([60, 124], 999)],
    split := fun w => [w] }

end Codec

/-- buildModelPrefixToEncoding evaluates to the explicit literal list. -/
theorem buildModelPrefixToEncoding_eq :
    buildModelPrefixToEncoding = modelPrefixLiteral := by decide

/-- modelPrefixToEncoding equals the explicit literal list. -/
theorem modelPrefixToEncoding_eq :
    modelPrefixToEncoding = modelPrefixLiteral :=
  buildModelPrefixToEncoding_eq

/-- C3: the fixed-priority contract fails on the code.  The model name
phi3-mini misses the exact tier and matches the prefix phi3 of phiModels
(mapped to the llama encoding) and the prefix phi of the lower-priority
smallModels (mapped to r50k_base); the tables are merged into one flat Go
map and ForModel takes the first match of an arbitrary map iteration, so
under the legal iteration order that visits phi first the resolution
returns the r50k codec, not the encoding of the earlier-merged table. -/
theorem forModel_priority_order_violated :
    ("phi3", OllamaLlamaBase) ∈ phiModels ∧
    ("phi", R50kBase) ∈ smallModels ∧
    allTables[7]? = some phiModels ∧
    allTables[10]? = some smallModels ∧
    OllamaLlamaBase ≠ R50kBase ∧
    exactEncoding "phi3-mini" = none ∧
    goHasPrefix "phi3" "phi3-mini" = true ∧
    goHasPrefix "phi" "phi3-mini" = true ∧
    phiFirstOrder.Perm modelPrefixToEncoding ∧
    forModelWith phiFirstOrder "phi3-mini" = .ok .r50k ∧
    Get OllamaLlamaBase ≠ .ok .r50k := by
  refine ⟨by decide, by decide, by decide, by decide, by decide, by decide,
    by decide, by decide, ?_, by decide, by decide⟩
  rw [modelPrefixToEncoding_eq]
  have hm : ("phi", R50kBase) ∈ modelPrefixLiteral := by decide
  exact (List.perm_cons_erase hm).symm

/-- C4: model resolution is not deterministic.  Two legal iteration orders
of the merged prefix map resolve phi3-mini to two different codecs. -/
theorem forModel_not_deterministic :
    phi3FirstOrder.Perm modelPrefixToEncoding ∧
    phiFirstOrder.Perm modelPrefixToEncoding ∧
    forModelWith phi3FirstOrder "phi3-mini" = .ok .llama3 ∧
    forModelWith phiFirstOrder "phi3-mini" = .ok .r50k ∧
    forModelWith phi3FirstOrder "phi3-mini" ≠
      forModelWith phiFirstOrder "phi3-mini" := by
  refine ⟨?_, ?_, by decide, by decide, by decide⟩
  · rw [modelPrefixToEncoding_eq]
    have hm : ("phi3", OllamaLlamaBase) ∈ modelPrefixLiteral := by decide
    exact (List.perm_cons_erase hm).symm
  · rw [modelPrefixToEncoding_eq]
    have hm : ("phi", R50kBase) ∈ modelPrefixLiteral := by decide
    exact (List.perm_cons_erase hm).symm

/-- C6: a model identifier matched by the exact tier resolves through it
alone: whatever the contents and order of the prefix table, ForModel
returns the exact tier's encoding. -/
theorem forModel_exact_tier_first (m e : String)
    (order : List (String × String)) (h : exactEncoding m = some e) :
    forModelWith order m = Get e := by
  unfold forModelWith
  rw [h]

/-- C6 witness: gpt-4 is in the exact tier with cl100k_base, and even under
a prefix table whose entry gpt-4 maps to the llama encoding the exact
tier's encoding is returned. -/
theorem forModel_exact_tier_first_witness :
    exactEncoding "gpt-4" = some Cl100kBase ∧
    goHasPrefix "gpt-4" "gpt-4" = true ∧
    forModelWith [("gpt-4", OllamaLlamaBase)] "gpt-4" = Get Cl100kBase :=
  ⟨by decide, by decide,
   forModel_exact_tier_first "gpt-4" Cl100kBase [("gpt-4", OllamaLlamaBase)]
     (by decide)⟩

/-- C7: configuration errors are the operation's failure result.  Get
returns a codec for each of the six supported encoding identifiers and the
encoding-not-supported error for every other identifier; ForModel returns
the model-not-supported error exactly when the identifier misses the exact
tier and no prefix of the merged table matches, under every iteration
order of the map. -/
theorem configuration_errors :
    (∀ e, e ∈ supportedEncodings → ∃ c, Get e = .ok c) ∧
    (∀ e, e ∉ supportedEncodings → Get e = .error ErrEncodingNotSupported) ∧
    (∀ m, exactEncoding m = none →
      (∀ p ∈ modelPrefixToEncoding, goHasPrefix p.1 m = false) →
      ∀ order, order.Perm modelPrefixToEncoding →
        forModelWith order m = .error ErrModelNotSupported) := by
  refine ⟨?_, ?_, ?_⟩
  · intro e he
    simp only [supportedEncodings, List.mem_cons, List.not_mem_nil,
      or_false] at he
    rcases he with rfl | rfl | rfl | rfl | rfl | rfl
    · exact ⟨.o200k, by decide⟩
    · exact ⟨.cl100k, by decide⟩
    · exact ⟨.r50k, by decide⟩
    · exact ⟨.p50k, by decide⟩
    · exact ⟨.p50kEdit, by decide⟩
    · exact ⟨.llama3, by decide⟩
  · intro e he
    unfold Get
    split_ifs with h1 h2 h3 h4 h5 h6
    · subst h1; exact absurd (by decide) he
    · subst h2; exact absurd (by decide) he
    · subst h3; exact absurd (by decide) he
    · subst h4; exact absurd (by decide) he
    · subst h5; exact absurd (by decide) he
    · subst h6; exact absurd (by decide) he
    · rfl
  · intro m hm hp order hperm
    unfold forModelWith
    rw [hm]
    have hnone : order.find? (fun p => goHasPrefix p.1 m) = none := by
      refine List.find?_eq_none.mpr ?_
      intro p hpo
      rw [hp p (hperm.mem_iff.mp hpo)]
      simp
    rw [hnone]

/-- C7 witness: o200k_base is accepted, the identifier gpt2 is rejected
with the encoding error, and a name matching neither tier is rejected with
the model error. -/
theorem configuration_errors_witness :
    (∃ c, Get O200kBase = .ok c) ∧
    Get "gpt2" = .error ErrEncodingNotSupported ∧
    forModelWith modelPrefixLiteral "mystery-model-xyz" =
      .error ErrModelNotSupported := by
  have h1 := configuration_errors.1 O200kBase (by decide)
  have h2 := configuration_errors.2.1 "gpt2" (by decide)
  have h3 := configuration_errors.2.2 "mystery-model-xyz" (by decide)
    (by rw [modelPrefixToEncoding_eq]; decide) modelPrefixLiteral
    (modelPrefixToEncoding_eq ▸ List.Perm.refl _)
  exact ⟨h1, h2, h3⟩

/-- C9: the AnthropicBase constant is the very cl100k_base identifier, Get
on it returns the Cl100k codec, and every Claude prefix, in its own family
table and in the merged resolution map, carries the cl100k_base
encoding. -/
theorem anthropic_is_cl100k :
    AnthropicBase = Cl100kBase ∧
    Get AnthropicBase = .ok .cl100k ∧
    claudeModels.all (fun p => p.2 == Cl100kBase) = true ∧
    claudeModels.all (fun p =>
      modelPrefixLiteral.find? (fun q => q.1 == p.1) ==
        some (p.1, Cl100kBase)) = true := by
  refine ⟨rfl, by decide, by decide, by decide⟩

/-- C10: any codec Get returns is one of the six supported families, and
is never the GPT-2 codec: its kind differs from gpt2 and its name differs
from the name NewGPT2Base gives its codec. -/
theorem Get_never_returns_gpt2 (e : String) (c : CodecKind)
    (h : Get e = .ok c) :
    c ∈ [CodecKind.o200k, .cl100k, .r50k, .p50k, .p50kEdit, .llama3] ∧
    c ≠ .gpt2 ∧ codecName c ≠ NewGPT2Base.name := by
  unfold Get at h
  split_ifs at h <;>
    simp only [Except.ok.injEq, reduceCtorEq] at h
  · subst h; exact ⟨by decide, by decide, by decide⟩
  · subst h; exact ⟨by decide, by decide, by decide⟩
  · subst h; exact ⟨by decide, by decide, by decide⟩
  · subst h; exact ⟨by decide, by decide, by decide⟩
  · subst h; exact ⟨by decide, by decide, by decide⟩
  · subst h; exact ⟨by decide, by decide, by decide⟩

/-- C10 witness: the llama identifier yields the LLaMA3 codec, which is
among the six and is not the GPT-2 codec. -/
theorem Get_never_returns_gpt2_witness :
    CodecKind.llama3 ∈ [CodecKind.o200k, .cl100k, .r50k, .p50k, .p50kEdit,
      .llama3] ∧
    CodecKind.llama3 ≠ .gpt2 ∧
    codecName .llama3 ≠ NewGPT2Base.name :=
  Get_never_returns_gpt2 OllamaLlamaBase .llama3 (by decide)

/-- C5: Count resolves the model, then returns the raw codec count
unchanged when no Ratios prefix matches the model name, and the raw count
multiplied by a matching entry's ratio (the first match of the iteration
order) when some prefix matches. -/
theorem Count_applies_ratio (order : List (String × String))
    (ratios : List (String × (Nat × Nat)))
    (codecCount : CodecKind → String → Nat) (model input : String)
    (k : CodecKind) (h : forModelWith order model = .ok k) :
    ((∀ p ∈ ratios, goHasPrefix p.1 model = false) →
      Count order ratios codecCount model input = .ok (codecCount k input)) ∧
    (∀ s r, ratios.find? (fun p => goHasPrefix p.1 model) = some (s, r) →
      (s, r) ∈ ratios ∧ goHasPrefix s model = true ∧
      Count order ratios codecCount model input =
        .ok (applyRatio (codecCount k input) r)) ∧
    ((∃ p ∈ ratios, goHasPrefix p.1 model = true) →
      ∃ s r, (s, r) ∈ ratios ∧ goHasPrefix s model = true ∧
        Count order ratios codecCount model input =
          .ok (applyRatio (codecCount k input) r)) := by
  refine ⟨?_, ?_, ?_⟩
  · intro hn
    have hnone : ratios.find? (fun p => goHasPrefix p.1 model) = none := by
      refine List.find?_eq_none.mpr ?_
      intro p hpm
      rw [hn p hpm]
      simp
    unfold Count
    rw [h, hnone]
  · intro s r hf
    refine ⟨List.mem_of_find?_eq_some hf, by simpa using List.find?_some hf,
      ?_⟩
    unfold Count
    rw [h, hf]
  · intro hex
    match hf : ratios.find? (fun p => goHasPrefix p.1 model) with
    | some p =>
      refine ⟨p.1, p.2, List.mem_of_find?_eq_some hf,
        by simpa using List.find?_some hf, ?_⟩
      unfold Count
      rw [h, hf]
    | none =>
      obtain ⟨p, hpm, hpp⟩ := hex
      have := List.find?_eq_none.mp hf p hpm
      simp [hpp] at this

/-- C5 witness: with the claude-opus model resolved to the Cl100k codec
and a raw count of 100, a matching ratio 8/10 yields 80 while an empty
Ratios table leaves the raw count unchanged. -/
theorem Count_applies_ratio_witness :
    Count modelPrefixLiteral [("claude-", (8, 10))] (fun _ _ => 100)
      "claude-opus-4-20250514" "sample input" = .ok 80 ∧
    Count modelPrefixLiteral [] (fun _ _ => 100)
      "claude-opus-4-20250514" "sample input" = .ok 100 := by
  constructor
  · have h := (Count_applies_ratio modelPrefixLiteral [("claude-", (8, 10))]
      (fun _ _ => 100) "claude-opus-4-20250514" "sample input" .cl100k
      (by decide)).2.1 "claude-" (8, 10) (by decide)
    exact h.2.2.trans (by decide)
  · exact (Count_applies_ratio modelPrefixLiteral []
      (fun _ _ => 100) "claude-opus-4-20250514" "sample input" .cl100k
      (by decide)).1 (by decide)

/-- C8: the LLaMA3 special-token table has exactly
numReservedSpecialTokens entries, pairwise distinct literal strings, whose
ids are exactly the contiguous block numBaseTokens .. numBaseTokens + 255
in order, hence pairwise distinct and numerically above every vocabulary
rank (ranks being below numBaseTokens). -/
theorem llama3_reserved_block (n : Nat) :
    ((NewLLama3Base n).specialTokens).length = numReservedSpecialTokens ∧
    ((NewLLama3Base n).specialTokens).map Prod.snd =
      (List.range numReservedSpecialTokens).map (fun i => n + i) ∧
    (((NewLLama3Base n).specialTokens).map Prod.snd).Nodup ∧
    (((NewLLama3Base n).specialTokens).map Prod.fst).Nodup ∧
    ∀ p ∈ (NewLLama3Base n).specialTokens, ∀ r < n, r < p.2 := by
  have hsnd : ((NewLLama3Base n).specialTokens).map Prod.snd =
      (List.range numReservedSpecialTokens).map (fun i => n + i) := by
    show (llama3SpecialTokens n).map Prod.snd = _
    simp only [llama3SpecialTokens, numReservedSpecialTokens,
      List.map_append, List.map_map]
    rw [show (256 : Nat) = 12 + 244 from rfl, List.range_add,
      List.map_append, List.map_map]
    congr 1
  refine ⟨?_, hsnd, ?_, ?_, ?_⟩
  · show (llama3SpecialTokens n).length = _
    simp [llama3SpecialTokens, numReservedSpecialTokens]
  · rw [hsnd]
    exact List.Nodup.map (fun a b hab => by omega) (List.nodup_range _)
  · show ((llama3SpecialTokens n).map Prod.fst).Nodup
    have hfst : (llama3SpecialTokens n).map Prod.fst =
        (llama3SpecialTokens 0).map Prod.fst := by
      simp [llama3SpecialTokens, Function.comp_def]
    rw [hfst]
    exact List.Nodup.of_map strKey (by decide)
  · intro p hp r hr
    have h2 : p.2 ∈ ((NewLLama3Base n).specialTokens).map Prod.snd :=
      List.mem_map_of_mem _ hp
    rw [hsnd] at h2
    simp only [List.mem_map, List.mem_range] at h2
    obtain ⟨i, -, hi⟩ := h2
    omega

namespace Codec

theorem foldl_min_mem (cs : List (Nat × Nat)) :
    ∀ c, cs.foldl (fun best p => if p.2 < best.2 then p else best) c ∈ c :: cs := by
  induction cs with
  | nil => intro c; simp
  | cons p cs ih =>
    intro c
    simp only [List.foldl_cons]
    have h := ih (if p.2 < c.2 then p else c)
    rcases List.mem_cons.mp h with h1 | h1
    · rw [h1]
      split
      · exact List.mem_cons_of_mem _ (List.mem_cons_self _ _)
      · exact List.mem_cons_self _ _
    · exact List.mem_cons_of_mem _ (List.mem_cons_of_mem _ h1)

theorem selectMin_mem {l : List (Nat × Nat)} {c : Nat × Nat}
    (h : selectMin l = some c) : c ∈ l := by
  cases l with
  | nil => simp [selectMin] at h
  | cons a as =>
    simp only [selectMin, Option.some.injEq] at h
    subst h
    exact foldl_min_mem as a

theorem candidates_sound (v : Vocab) :
    ∀ (parts : List (List Nat)) (c : Nat × Nat), c ∈ candidates v parts →
      ∃ a b, parts[c.1]? = some a ∧ parts[c.1 + 1]? = some b ∧
        v.rankOf (a ++ b) = some c.2 := by
  intro parts
  induction parts with
  | nil => intro c hc; simp [candidates] at hc
  | cons a tail ih =>
    cases tail with
    | nil => intro c hc; simp [candidates] at hc
    | cons b rest =>
      intro c hc
      simp only [candidates] at hc
      rcases List.mem_append.mp hc with h1 | h1
      · cases hr : v.rankOf (a ++ b) with
        | none => rw [hr] at h1; simp at h1
        | some r =>
          rw [hr] at h1
          simp at h1
          subst h1
          exact ⟨a, b, by simp, by simp, by rw [hr]⟩
      · rcases List.mem_map.mp h1 with ⟨c', hc', rfl⟩
        obtain ⟨x, y, h3, h4, h5⟩ := ih c' hc'
        exact ⟨x, y, by simpa using h3, by simpa using h4, h5⟩

theorem mergeAt_flatten : ∀ (parts : List (List Nat)) (i : Nat),
    (mergeAt parts i).flatten = parts.flatten := by
  intro parts
  induction parts with
  | nil => intro i; cases i <;> simp [mergeAt]
  | cons a tail ih =>
    intro i
    cases i with
    | zero =>
      cases tail with
      | nil => simp [mergeAt]
      | cons b rest => simp [mergeAt]
    | succ j =>
      simp [mergeAt, ih j]

theorem mergeAt_sub : ∀ (parts : List (List Nat)) (i : Nat) (q : List Nat),
    q ∈ mergeAt parts i → q ∈ parts ∨
      ∃ a b, parts[i]? = some a ∧ parts[i + 1]? = some b ∧ q = a ++ b := by
  intro parts
  induction parts with
  | nil => intro i q hq; cases i <;> simp [mergeAt] at hq
  | cons a tail ih =>
    intro i q hq
    cases i with
    | zero =>
      cases tail with
      | nil =>
        simp [mergeAt] at hq
        exact Or.inl (by simp [hq])
      | cons b rest =>
        simp only [mergeAt] at hq
        rcases List.mem_cons.mp hq with h | h
        · exact Or.inr ⟨a, b, by simp, by simp, h⟩
        · exact Or.inl (List.mem_cons_of_mem _ (List.mem_cons_of_mem _ h))
    | succ j =>
      simp only [mergeAt] at hq
      rcases List.mem_cons.mp hq with h | h
      · exact Or.inl (by simp [h])
      · rcases ih j q h with h2 | ⟨x, y, hx, hy, hq2⟩
        · exact Or.inl (List.mem_cons_of_mem _ h2)
        · exact Or.inr ⟨x, y, by simpa using hx, by simpa using hy, hq2⟩

theorem bpeMergeFuel_flatten (v : Vocab) :
    ∀ (fuel : Nat) (parts : List (List Nat)),
      (bpeMergeFuel v fuel parts).flatten = parts.flatten := by
  intro fuel
  induction fuel with
  | zero => intro parts; simp [bpeMergeFuel]
  | succ f ih =>
    intro parts
    simp only [bpeMergeFuel]
    cases hs : selectMin (candidates v parts) with
    | none => rfl
    | some c => rw [ih, mergeAt_flatten]

theorem bpeMergeFuel_ranks (v : Vocab) :
    ∀ (fuel : Nat) (parts : List (List Nat)),
      (∀ q ∈ parts, (v.rankOf q).isSome) →
      ∀ q ∈ bpeMergeFuel v fuel parts, (v.rankOf q).isSome := by
  intro fuel
  induction fuel with
  | zero => intro parts hp; simpa [bpeMergeFuel] using hp
  | succ f ih =>
    intro parts hp q hq
    simp only [bpeMergeFuel] at hq
    cases hs : selectMin (candidates v parts) with
    | none => rw [hs] at hq; exact hp q hq
    | some c =>
      rw [hs] at hq
      refine ih (mergeAt parts c.1) ?_ q hq
      intro q' hq'
      rcases mergeAt_sub parts c.1 q' hq' with h | ⟨x, y, hx, hy, rfl⟩
      · exact hp q' h
      · obtain ⟨a, b, ha, hb, hr⟩ := candidates_sound v parts c (selectMin_mem hs)
        rw [ha] at hx
        rw [hb] at hy
        obtain rfl : a = x := Option.some.inj hx
        obtain rfl : b = y := Option.some.inj hy
        simp [hr]

theorem flatten_singletons (c : List Nat) :
    (c.map (fun b => [b])).flatten = c := by
  induction c with
  | nil => simp
  | cons b bs ih => simp [ih]

theorem traverse?_rank_pairs (v : Vocab) :
    ∀ (parts : List (List Nat)), (∀ q ∈ parts, (v.rankOf q).isSome) →
      ∃ pairs,
        traverse? (fun part => (v.rankOf part).map (fun r => (part, r)))
          parts = some pairs ∧
        pairs.map Prod.fst = parts ∧
        ∀ pr ∈ pairs, v.rankOf pr.1 = some pr.2 := by
  intro parts
  induction parts with
  | nil => exact fun _ => ⟨[], rfl, rfl, by simp⟩
  | cons a as ih =>
    intro hp
    obtain ⟨r, hr⟩ :=
      Option.isSome_iff_exists.mp (hp a (List.mem_cons_self a as))
    obtain ⟨pairs, h1, h2, h3⟩ :=
      ih (fun q hq => hp q (List.mem_cons_of_mem _ hq))
    refine ⟨(a, r) :: pairs, ?_, ?_, ?_⟩
    · simp [traverse?, hr, h1]
    · simp [h2]
    · intro pr hpr
      rcases List.mem_cons.mp hpr with rfl | hpr2
      · exact hr
      · exact h3 pr hpr2

theorem find?_id_of_mem : ∀ (specials : List (List Nat × Nat)),
    (specials.map Prod.snd).Nodup → ∀ {s : List Nat} {i : Nat},
    (s, i) ∈ specials → specials.find? (fun p => p.2 == i) = some (s, i) := by
  intro specials
  induction specials with
  | nil => intro _ s i h; simp at h
  | cons q tl ih =>
    intro hnd s i hm
    simp only [List.map_cons] at hnd
    rcases List.mem_cons.mp hm with rfl | hm2
    · simp [List.find?]
    · have hni : (q.2 == i) = false := by
        have hmem : i ∈ tl.map Prod.snd :=
          (List.mem_map_of_mem Prod.snd hm2 : (s, i).2 ∈ tl.map Prod.snd)
        rcases List.nodup_cons.mp hnd with ⟨hq2, -⟩
        simp only [beq_eq_false_iff_ne, ne_eq]
        intro he
        exact hq2 (he ▸ hmem)
      rw [List.find?_cons, hni]
      exact ih (List.nodup_cons.mp hnd).2 hm2

theorem recognize_cons_some {specials : List (List Nat × Nat)} {b : Nat}
    {rest : List Nat} {p : List Nat × Nat}
    (hfind : findSpecialAt specials (b :: rest) = some p) :
    recognize specials (b :: rest) =
      Seg.special p.1 p.2 ::
        recognize specials ((b :: rest).drop p.1.length) := by
  rw [recognize]
  split
  · rename_i p' heq
    rw [hfind] at heq
    obtain rfl := Option.some.inj heq
    rfl
  · rename_i heq
    rw [hfind] at heq
    exact absurd heq (by simp)

theorem recognize_cons_none {specials : List (List Nat × Nat)} {b : Nat}
    {rest : List Nat}
    (hfind : findSpecialAt specials (b :: rest) = none) :
    recognize specials (b :: rest) =
      match recognize specials rest with
      | Seg.plain w :: segs => Seg.plain (b :: w) :: segs
      | segs => Seg.plain [b] :: segs := by
  rw [recognize]
  split
  · rename_i p' heq
    rw [hfind] at heq
    exact absurd heq (by simp)
  · rfl

theorem recognize_flatten (specials : List (List Nat × Nat)) :
    ∀ t, ((recognize specials t).map segBytes).flatten = t := by
  intro t
  induction t using recognize.induct with
  | specials => exact specials
  | case1 => simp [recognize]
  | case2 b rest p hfind ih =>
    rw [recognize_cons_some hfind]
    have hpre : p.1 <+: (b :: rest) := by
      have hp := List.find?_some hfind
      rcases Bool.and_eq_true .. |>.mp hp with ⟨h1, -⟩
      exact List.isPrefixOf_iff_prefix.mp h1
    obtain ⟨sfx, hsfx⟩ := hpre
    simp only [List.map_cons, List.flatten_cons, segBytes, ih]
    rw [← hsfx, List.drop_left]
  | case3 b rest hfind w segs hrec ih =>
    rw [recognize_cons_none hfind, hrec]
    rw [hrec] at ih
    simp only [List.map_cons, List.flatten_cons, segBytes] at ih ⊢
    rw [← ih]
    simp
  | case4 b rest hfind hnp ih =>
    rw [recognize_cons_none hfind]
    cases hrec : recognize specials rest with
    | nil =>
      rw [hrec] at ih
      simp only [List.map_nil, List.flatten_nil] at ih
      simp [segBytes, ← ih]
    | cons sg segs =>
      cases sg with
      | plain w => exact absurd hrec (by intro hc; exact hnp w segs hc)
      | special s j =>
        rw [hrec] at ih
        simp only [List.map_cons, List.flatten_cons, segBytes] at ih ⊢
        rw [← ih]
        rfl

theorem recognize_special_mem (specials : List (List Nat × Nat)) :
    ∀ t {s : List Nat} {i : Nat},
      Seg.special s i ∈ recognize specials t → (s, i) ∈ specials := by
  intro t
  induction t using recognize.induct with
  | specials => exact specials
  | case1 => intro s i h; simp [recognize] at h
  | case2 b rest p hfind ih =>
    intro s i h
    rw [recognize_cons_some hfind] at h
    rcases List.mem_cons.mp h with heq | hmem
    · have hp : p ∈ specials := List.mem_of_find?_eq_some hfind
      obtain ⟨h1, h2⟩ := Seg.special.inj heq
      rw [h1, h2]
      exact hp
    · exact ih hmem
  | case3 b rest hfind w segs hrec ih =>
    intro s i h
    rw [recognize_cons_none hfind, hrec] at h
    rcases List.mem_cons.mp h with heq | hmem
    · exact absurd heq (by simp)
    · exact ih (hrec ▸ List.mem_cons_of_mem _ hmem)
  | case4 b rest hfind hnp ih =>
    intro s i h
    rw [recognize_cons_none hfind] at h
    cases hrec : recognize specials rest with
    | nil =>
      rw [hrec] at h
      rcases List.mem_cons.mp h with heq | hmem
      · exact absurd heq (by simp)
      · simp at hmem
    | cons sg segs =>
      cases sg with
      | plain w => exact absurd hrec (by intro hc; exact hnp w segs hc)
      | special s' j =>
        rw [hrec] at h
        rcases List.mem_cons.mp h with heq | hmem
        · exact absurd heq (by simp)
        · exact ih (hrec ▸ hmem)

theorem encodeChunk_ok (cfg : Config) (h : SpecOk cfg) (c : List Nat)
    (hc : ∀ b ∈ c, b < 256) :
    ∃ pairs, encodeChunk cfg.vocab c = some pairs ∧
      (pairs.map Prod.fst).flatten = c ∧
      pairs.length = countChunk cfg.vocab c ∧
      ∀ pr ∈ pairs, decodeId cfg pr.2 = some pr.1 := by
  have hparts0 : ∀ q ∈ c.map (fun b => [b]), (cfg.vocab.rankOf q).isSome := by
    intro q hq
    rcases List.mem_map.mp hq with ⟨b, hb, rfl⟩
    exact h.floor b (hc b hb)
  have hranks : ∀ q ∈ bpeMerge cfg.vocab (c.map (fun b => [b])),
      (cfg.vocab.rankOf q).isSome :=
    bpeMergeFuel_ranks cfg.vocab _ _ hparts0
  obtain ⟨pairs, h1, h2, h3⟩ := traverse?_rank_pairs cfg.vocab _ hranks
  refine ⟨pairs, h1, ?_, ?_, ?_⟩
  · rw [h2]
    show (bpeMergeFuel cfg.vocab _ _).flatten = c
    rw [bpeMergeFuel_flatten, flatten_singletons]
  · have := congrArg List.length h2
    rw [List.length_map] at this
    exact this
  · intro pr hpr
    unfold decodeId
    rw [h.inverse pr.1 pr.2 (h3 pr hpr)]

theorem traverse?_chunks (cfg : Config) (h : SpecOk cfg) :
    ∀ (chunks : List (List Nat)), (∀ ch ∈ chunks, ∀ b ∈ ch, b < 256) →
      ∃ ll, traverse? (encodeChunk cfg.vocab) chunks = some ll ∧
        (ll.flatten.map Prod.fst).flatten = chunks.flatten ∧
        ll.flatten.length = (chunks.map (countChunk cfg.vocab)).sum ∧
        ∀ pr ∈ ll.flatten, decodeId cfg pr.2 = some pr.1 := by
  intro chunks
  induction chunks with
  | nil => exact fun _ => ⟨[], rfl, by simp, by simp, by simp⟩
  | cons ch chunks ih =>
    intro hch
    obtain ⟨pairs, hp1, hp2, hp3, hp4⟩ :=
      encodeChunk_ok cfg h ch (hch ch (List.mem_cons_self ch chunks))
    obtain ⟨ll, hl1, hl2, hl3, hl4⟩ :=
      ih (fun c hc => hch c (List.mem_cons_of_mem _ hc))
    refine ⟨pairs :: ll, ?_, ?_, ?_, ?_⟩
    · simp [traverse?, hp1, hl1]
    · simp only [List.flatten_cons, List.map_append, List.flatten_append,
        hp2, hl2]
    · simp [hp3, hl3]
    · intro pr hpr
      simp only [List.flatten_cons] at hpr
      rcases List.mem_append.mp hpr with hm | hm
      · exact hp4 pr hm
      · exact hl4 pr hm

theorem encodeSeg_ok (cfg : Config) (h : SpecOk cfg) (seg : Seg)
    (hw : SegWf cfg seg) :
    ∃ pairs, encodeSeg cfg seg = some pairs ∧
      (pairs.map Prod.fst).flatten = segBytes seg ∧
      pairs.length = countSeg cfg seg ∧
      ∀ pr ∈ pairs, decodeId cfg pr.2 = some pr.1 := by
  cases seg with
  | special s i =>
    refine ⟨[(s, i)], rfl, by simp [segBytes], by simp [countSeg], ?_⟩
    intro pr hpr
    rcases List.mem_cons.mp hpr with rfl | habs
    · have hd := h.disjointSpecials (s, i) hw
      unfold decodeId
      rw [hd, find?_id_of_mem cfg.specialTokens h.specialIdsNodup hw]
      rfl
    · simp at habs
  | plain w =>
    have hbytes : ∀ ch ∈ cfg.split w, ∀ b ∈ ch, b < 256 := by
      intro ch hch b hb
      apply hw
      rw [← h.splitParts w]
      exact List.mem_flatten.mpr ⟨ch, hch, hb⟩
    obtain ⟨ll, h1, h2, h3, h4⟩ := traverse?_chunks cfg h (cfg.split w) hbytes
    refine ⟨ll.flatten, ?_, ?_, ?_, h4⟩
    · simp [encodeSeg, h1]
    · rw [h2, h.splitParts w]
      rfl
    · simp [countSeg, h3]

theorem encode_segs (cfg : Config) (h : SpecOk cfg) :
    ∀ (segs : List Seg), (∀ seg ∈ segs, SegWf cfg seg) →
      ∃ ll, traverse? (encodeSeg cfg) segs = some ll ∧
        (ll.flatten.map Prod.fst).flatten = (segs.map segBytes).flatten ∧
        ll.flatten.length = (segs.map (countSeg cfg)).sum ∧
        ∀ pr ∈ ll.flatten, decodeId cfg pr.2 = some pr.1 := by
  intro segs
  induction segs with
  | nil => exact fun _ => ⟨[], rfl, by simp, by simp, by simp⟩
  | cons seg segs ih =>
    intro hws
    obtain ⟨pairs, hp1, hp2, hp3, hp4⟩ :=
      encodeSeg_ok cfg h seg (hws seg (List.mem_cons_self seg segs))
    obtain ⟨ll, hl1, hl2, hl3, hl4⟩ :=
      ih (fun sg hsg => hws sg (List.mem_cons_of_mem _ hsg))
    refine ⟨pairs :: ll, ?_, ?_, ?_, ?_⟩
    · simp [traverse?, hp1, hl1]
    · simp only [List.flatten_cons, List.map_append, List.flatten_append,
        List.map_cons, hp2, hl2]
    · simp [hp3, hl3]
    · intro pr hpr
      simp only [List.flatten_cons] at hpr
      rcases List.mem_append.mp hpr with hm | hm
      · exact hp4 pr hm
      · exact hl4 pr hm

theorem decode_of_pairs (cfg : Config) :
    ∀ (pairs : List (List Nat × Nat)),
      (∀ pr ∈ pairs, decodeId cfg pr.2 = some pr.1) →
      Decode cfg (pairs.map Prod.snd) = some ((pairs.map Prod.fst).flatten) := by
  intro pairs
  induction pairs with
  | nil => intro _; rfl
  | cons pr pairs ih =>
    intro hall
    have hhd := hall pr (List.mem_cons_self pr pairs)
    have htl := ih (fun q hq => hall q (List.mem_cons_of_mem _ hq))
    unfold Decode at htl ⊢
    cases ht : traverse? (decodeId cfg) (pairs.map Prod.snd) with
    | none => rw [ht] at htl; simp at htl
    | some bs =>
      rw [ht] at htl
      simp only [Option.map_eq_some'] at htl
      obtain ⟨bs', hbs', hfl⟩ := htl
      obtain rfl := Option.some.inj hbs'
      simp only [List.map_cons, traverse?, hhd, ht]
      simp [hfl]

/-- C1: the round-trip guarantee.  For every configuration satisfying the
spec invariants and every byte sequence, Encode succeeds and Decode on the
produced ids returns the original bytes exactly. -/
theorem Decode_Encode_roundtrip (cfg : Config) (h : SpecOk cfg)
    (t : List Nat) (ht : ∀ b ∈ t, b < 256) :
    ∃ res, Encode cfg t = some res ∧ Decode cfg res.1 = some t := by
  have hsegs : ∀ seg ∈ recognize cfg.specialTokens t, SegWf cfg seg := by
    intro seg hseg
    cases seg with
    | special s i => exact recognize_special_mem cfg.specialTokens t hseg
    | plain w =>
      intro b hb
      refine ht b ?_
      rw [← recognize_flatten cfg.specialTokens t]
      exact List.mem_flatten.mpr
        ⟨segBytes (Seg.plain w), List.mem_map_of_mem segBytes hseg, hb⟩
  obtain ⟨ll, hll, hflat, hlen, hdec⟩ := encode_segs cfg h _ hsegs
  refine ⟨(ll.flatten.map Prod.snd, ll.flatten.map Prod.fst), ?_, ?_⟩
  · unfold Encode
    rw [hll]
    rfl
  · show Decode cfg (ll.flatten.map Prod.snd) = some t
    rw [decode_of_pairs cfg ll.flatten hdec, hflat,
      recognize_flatten cfg.specialTokens t]

/-- C2: count consistency.  For every configuration satisfying the spec
invariants and every byte sequence, Encode succeeds and Count equals the
length of the produced id sequence. -/
theorem Count_eq_encode_length (cfg : Config) (h : SpecOk cfg)
    (t : List Nat) (ht : ∀ b ∈ t, b < 256) :
    ∃ res, Encode cfg t = some res ∧ Count cfg t = res.1.length := by
  have hsegs : ∀ seg ∈ recognize cfg.specialTokens t, SegWf cfg seg := by
    intro seg hseg
    cases seg with
    | special s i => exact recognize_special_mem cfg.specialTokens t hseg
    | plain w =>
      intro b hb
      refine ht b ?_
      rw [← recognize_flatten cfg.specialTokens t]
      exact List.mem_flatten.mpr
        ⟨segBytes (Seg.plain w), List.mem_map_of_mem segBytes hseg, hb⟩
  obtain ⟨ll, hll, hflat, hlen, hdec⟩ := encode_segs cfg h _ hsegs
  refine ⟨(ll.flatten.map Prod.snd, ll.flatten.map Prod.fst), ?_, ?_⟩
  · unfold Encode
    rw [hll]
    rfl
  · show Count cfg t = (ll.flatten.map Prod.snd).length
    rw [List.length_map]
    exact hlen.symm

theorem witCfg_ok : SpecOk witCfg := by
  refine ⟨?_, ?_, ?_, ?_, ?_⟩
  · intro w r hw
    rcases w with _ | ⟨a, _ | ⟨b, _ | ⟨c, w⟩⟩⟩
    · simp [witCfg] at hw
    · simp only [witCfg] at hw ⊢
      split_ifs at hw with ha
      · obtain rfl := Option.some.inj hw
        simp [ha]
    · simp only [witCfg] at hw ⊢
      split_ifs at hw with hab
      · obtain rfl := Option.some.inj hw
        rcases Bool.and_eq_true .. |>.mp hab with ⟨h1, h2⟩
        obtain rfl : a = 104 := by simpa using h1
        obtain rfl : b = 105 := by simpa using h2
        simp
    · simp [witCfg] at hw
  · intro b hb
    simp [witCfg, hb]
  · intro p hp
    simp only [witCfg, List.mem_singleton] at hp
    subst hp
    simp [witCfg]
  · simp [witCfg]
  · intro w
    simp [witCfg]

/-- C1 witness: the concrete text 60 124 104 105 (a special-token literal
followed by a mergeable pair) encodes successfully and decodes back to
itself under the witness configuration. -/
theorem Decode_Encode_roundtrip_witness :
    ∃ res, Encode witCfg [60, 124, 104, 105] = some res ∧
      Decode witCfg res.1 = some [60, 124, 104, 105] :=
  Decode_Encode_roundtrip witCfg witCfg_ok [60, 124, 104, 105] (by decide)

/-- C2 witness: for the same concrete text, Count equals the length of the
id sequence Encode produces. -/
theorem Count_eq_encode_length_witness :
    ∃ res, Encode witCfg [60, 124, 104, 105] = some res ∧
      Count witCfg [60, 124, 104, 105] = res.1.length :=
  Count_eq_encode_length witCfg witCfg_ok [60, 124, 104, 105] (by decide)

end Codec

end GoTokenizer
